import Mathlib

/-!
Verification of the selection-state semantics and the deterministic
serialization engine of the `prompt-gen` repository.

The embedding models a canonical, normalized absolute filesystem path as the
list of its components below the filesystem root (`/a/b` becomes
`["a", "b"]`, the filesystem root itself is `[]`).  `os.path.dirname` is
`List.dropLast`, `os.path.normpath` is the identity on this canonical form,
and Python's `str.startswith` on two paths of the same canonical chain is the
component-prefix test (the loops below only ever apply the test to a segment
and one of its dirname-iterates, where the two tests coincide).

The sets `selection_roots` / `explicit_exclusions` of `tui.py` are `Finset`s
of paths.  The Python loops `while True: ... parent = os.path.dirname(...)`
are embedded with an explicit fuel argument (the loops climb one component
per iteration, so `p.length + 1` units of fuel are always enough); fuel
exhaustion returns the value of the loop's own bottom-of-path exit so that
the wrappers below agree with the source on every input.
-/

abbrev FsPath := List String

/-- `is_effectively_selected` from `tui.py`: first loop — climb from the path
toward the filesystem root and stop at the first segment found in
`selection_roots` (the nearest enclosing root); `none` when the climb
exhausts ancestors.  Fuel-indexed image of `while True: if current in roots:
break; parent = dirname(current); if parent == current: break`. -/
def findNearestRootFuel (selection_roots : Finset FsPath) : Nat → FsPath → Option FsPath
  | 0, _ => none
  | Nat.succ fuel, p =>
    if p ∈ selection_roots then some p
    else if p.dropLast = p then none
    else findNearestRootFuel selection_roots fuel p.dropLast

def findNearestRoot (selection_roots : Finset FsPath) (p : FsPath) : Option FsPath :=
  findNearestRootFuel selection_roots (p.length + 1) p

/-- `is_effectively_selected` from `tui.py`: second loop — walk downward from
the path back toward the nearest enclosing root, returning `false` as soon as
a segment is in `explicit_exclusions`; reaching the root returns `true`.
The source's `if not current_path_segment.startswith(root): break` guard is
the component-prefix test here, and its `if not current_path_segment: break`
line is unreachable for absolute paths (dirname never yields the empty
string) and has no counterpart in the canonical-path model. -/
def walkDownFuel (explicit_exclusions : Finset FsPath) (root : FsPath) : Nat → FsPath → Bool
  | 0, _ => true
  | Nat.succ fuel, cur =>
    if cur = root then true
    else if cur ∈ explicit_exclusions then false
    else if cur.dropLast = cur then false
    else if ¬ (root <+: cur) then true
    else walkDownFuel explicit_exclusions root fuel cur.dropLast

/-- `is_effectively_selected(item_path, selection_roots, explicit_exclusions)`
from `tui.py` (lines 13–41).  `os.path.normpath` is the identity on the
canonical paths of the model. -/
def is_effectively_selected (item_path : FsPath)
    (selection_roots explicit_exclusions : Finset FsPath) : Bool :=
  match findNearestRoot selection_roots item_path with
  | none => false
  | some selected_ancestor_root =>
    if item_path = selected_ancestor_root then true
    else walkDownFuel explicit_exclusions selected_ancestor_root
      (item_path.length + 1) item_path

/-- The `ACTION_TOGGLE_SELECT` branch of `tui_main` in `tui.py`
(lines 378–395), as a pure state transition on the two sets.  The toggled
path is already normalized (`os.path.normpath` is the identity here). -/
def toggle (item_path : FsPath) (selection_roots explicit_exclusions : Finset FsPath) :
    Finset FsPath × Finset FsPath :=
  if is_effectively_selected item_path selection_roots explicit_exclusions then
    if item_path ∈ selection_roots then
      (selection_roots.erase item_path, explicit_exclusions.erase item_path)
    else
      (selection_roots, insert item_path explicit_exclusions)
  else
    if item_path ∈ explicit_exclusions then
      (selection_roots, explicit_exclusions.erase item_path)
    else
      (insert item_path selection_roots, explicit_exclusions.erase item_path)

/-- The selection states reachable in a `tui_main` session: both sets start
empty (`tui.py` lines 296–297) and are mutated only by the
`ACTION_TOGGLE_SELECT` branch. -/
inductive ReachableSel : Finset FsPath → Finset FsPath → Prop
  | init : ReachableSel ∅ ∅
  | toggleStep (P : FsPath) (r e : Finset FsPath) :
      ReachableSel r e → ReachableSel (toggle P r e).1 (toggle P r e).2

/-- `_is_path_excluded_for_generation` from `output_generator.py`
(lines 16–34): climb from `path_to_check` toward the walked selection root,
testing exclusion membership at every segment, inclusive of the root itself;
every loop break returns `False`.  Fuel-indexed like the loops above. -/
def genExclFuel (explicit_exclusions : Finset FsPath)
    (current_selection_root_path : FsPath) : Nat → FsPath → Bool
  | 0, _ => false
  | Nat.succ fuel, path_segment =>
    if path_segment ∈ explicit_exclusions then true
    else if path_segment = current_selection_root_path then false
    else if path_segment.dropLast = path_segment then false
    else if ¬ (current_selection_root_path <+: path_segment) then false
    else genExclFuel explicit_exclusions current_selection_root_path fuel
      path_segment.dropLast

def is_path_excluded_for_generation (path_to_check : FsPath)
    (current_selection_root_path : FsPath)
    (explicit_exclusions : Finset FsPath) : Bool :=
  genExclFuel explicit_exclusions current_selection_root_path
    (path_to_check.length + 1) path_to_check

/-! ### Filesystem and configuration model for the output generator -/

/-- The `config` module consumed by `output_generator.py` (the spec's
ContentPolicy): supplied externally, read-only to the core.
`MAX_FILE_SIZE_MB` only feeds the human-readable too-large message. -/
structure Config where
  IGNORE_DIRS : List String
  IGNORE_FILES : List String
  IGNORE_EXTENSIONS : List String
  TARGET_EXTENSIONS : List String
  MAX_FILE_SIZE_BYTES : Nat
  MAX_FILE_SIZE_MB : Nat

deriving instance DecidableEq for Except

/-- A filesystem snapshot: a file carries the result of `os.path.getsize`
and of opening and reading it (`Except.error` plays the role of a raised
`OSError`); a directory carries its children in `os.listdir` order. -/
inductive FSTree where
  | file (name : String) (size : Except String Nat) (content : Except String String)
  | dir (name : String) (children : List FSTree)
deriving Repr

def FSTree.name : FSTree → String
  | FSTree.file n _ _ => n
  | FSTree.dir n _ => n

/-- Resolve a canonical path in a node (the filesystem root is modeled as a
directory whose children are the top-level entries). -/
def resolveNode (t : FSTree) : FsPath → Option FSTree
  | [] => some t
  | n :: rest =>
    match t with
    | FSTree.dir _ cs =>
      match cs.find? (fun c => c.name == n) with
      | some c => resolveNode c rest
      | none => none
    | FSTree.file .. => none

def resolve (fsys : List FSTree) (p : FsPath) : Option FSTree :=
  resolveNode (FSTree.dir "" fsys) p

def isdir (fsys : List FSTree) (p : FsPath) : Bool :=
  match resolve fsys p with
  | some (FSTree.dir _ _) => true
  | _ => false

def isfile (fsys : List FSTree) (p : FsPath) : Bool :=
  match resolve fsys p with
  | some (FSTree.file ..) => true
  | _ => false

/-- `os.path.getsize`; a missing path raises. -/
def getsize (fsys : List FSTree) (p : FsPath) : Except String Nat :=
  match resolve fsys p with
  | some (FSTree.file _ sz _) => sz
  | some (FSTree.dir ..) => Except.error "IsADirectoryError"
  | none => Except.error "No such file or directory"

/-- `open(path).read()` with `errors="ignore"`: best-effort decoding never
raises on bad bytes, so decode loss is already folded into the stored text;
`Except.error` models an `OSError` raised while opening or reading. -/
def readFile (fsys : List FSTree) (p : FsPath) : Except String String :=
  match resolve fsys p with
  | some (FSTree.file _ _ content) => content
  | some (FSTree.dir ..) => Except.error "IsADirectoryError"
  | none => Except.error "No such file or directory"

/-- `os.path.relpath(p, base_run_directory)`, with the invocation directory
modeled at the filesystem root. -/
def displayRel (p : FsPath) : String := String.intercalate "/" p

/-- The absolute string form of a canonical path, used where the source
compares raw path strings. -/
def displayAbs (p : FsPath) : String := "/" ++ String.intercalate "/" p

/-- Python's string comparison is code-point lexicographic: the order on the
character list of a string. -/
def strle (a b : String) : Prop := a.toList ≤ b.toList

instance : DecidableRel strle := fun a b =>
  inferInstanceAs (Decidable (a.toList ≤ b.toList))

/-- Sort key of a path under Python's comparison of path strings:
component-wise lexicographic (which agrees with the string order of the
`/`-joined renderings for ordinary entry names; no claim below depends on
the relative order of distinct paths). -/
def pathKey (p : FsPath) : List (List Char) := p.map String.toList

def pathle (p q : FsPath) : Prop := pathKey p ≤ pathKey q

instance : DecidableRel pathle := fun p q =>
  inferInstanceAs (Decidable (pathKey p ≤ pathKey q))

lemma pathKey_injective : Function.Injective pathKey := by
  intro p q h
  have h2 : p.map String.toList = q.map String.toList := h
  have hinj : Function.Injective String.toList := by
    intro a b hab
    cases a
    cases b
    simpa [String.toList] using congrArg String.mk hab
  exact List.map_injective_iff.mpr hinj h2

instance : IsAntisymm FsPath pathle :=
  ⟨fun _ _ h1 h2 => pathKey_injective (le_antisymm h1 h2)⟩

instance : IsTotal FsPath pathle := ⟨fun p q => le_total (pathKey p) (pathKey q)⟩

instance : IsTrans FsPath pathle := ⟨fun _ _ _ h1 h2 => le_trans h1 h2⟩

/-- Helper for the model of Python's `sorted`: insertion into a sorted
list. -/
def insSorted (r : α → α → Prop) [DecidableRel r] (x : α) : List α → List α
  | [] => [x]
  | y :: ys => if r x y then x :: y :: ys else y :: insSorted r x ys

/-- Python's `sorted`, as an insertion sort under the given comparison (a
stable sort; for the total orders used here the result is the unique sorted
arrangement). -/
def sortByRel (r : α → α → Prop) [DecidableRel r] : List α → List α
  | [] => []
  | x :: xs => insSorted r x (sortByRel r xs)

lemma insSorted_perm (r : α → α → Prop) [DecidableRel r] (x : α) (l : List α) :
    (insSorted r x l).Perm (x :: l) := by
  induction l with
  | nil => exact List.Perm.refl _
  | cons y ys ih =>
    rw [insSorted]
    by_cases h : r x y
    · rw [if_pos h]
    · rw [if_neg h]
      exact (List.Perm.cons y ih).trans (List.Perm.swap x y ys)

lemma sortByRel_perm (r : α → α → Prop) [DecidableRel r] (l : List α) :
    (sortByRel r l).Perm l := by
  induction l with
  | nil => exact List.Perm.refl _
  | cons x xs ih =>
    exact (insSorted_perm r x (sortByRel r xs)).trans (List.Perm.cons x ih)

lemma insSorted_sorted (r : α → α → Prop) [DecidableRel r]
    (htot : ∀ a b, r a b ∨ r b a) (htr : ∀ a b c, r a b → r b c → r a c)
    (x : α) {l : List α} (h : l.Sorted r) : (insSorted r x l).Sorted r := by
  induction l with
  | nil => simp [insSorted]
  | cons y ys ih =>
    rw [insSorted]
    rw [List.sorted_cons] at h
    by_cases hxy : r x y
    · rw [if_pos hxy, List.sorted_cons]
      refine ⟨?_, List.sorted_cons.mpr h⟩
      intro b hb
      rcases List.mem_cons.mp hb with rfl | hb
      · exact hxy
      · exact htr x y b hxy (h.1 b hb)
    · rw [if_neg hxy, List.sorted_cons]
      have hyx : r y x := (htot x y).resolve_left hxy
      refine ⟨?_, ih h.2⟩
      intro b hb
      rcases List.mem_cons.mp ((insSorted_perm r x ys).mem_iff.mp hb) with rfl | hb
      · exact hyx
      · exact h.1 b hb

lemma sortByRel_sorted (r : α → α → Prop) [DecidableRel r]
    (htot : ∀ a b, r a b ∨ r b a) (htr : ∀ a b c, r a b → r b c → r a c)
    (l : List α) : (sortByRel r l).Sorted r := by
  induction l with
  | nil => simp [sortByRel]
  | cons x xs ih => exact insSorted_sorted r htot htr x ih

/-- `sorted(list(s))` over a set of paths: the unique `pathle`-sorted
arrangement of the set's elements. -/
def sortPaths (s : Finset FsPath) : List FsPath :=
  Quotient.liftOn s.val (fun l => sortByRel pathle l)
    (fun a b hab =>
      List.eq_of_perm_of_sorted
        ((sortByRel_perm pathle a).trans (hab.trans (sortByRel_perm pathle b).symm))
        (sortByRel_sorted pathle (fun p q => IsTotal.total p q)
          (fun _ _ _ h1 h2 => IsTrans.trans _ _ _ h1 h2) a)
        (sortByRel_sorted pathle (fun p q => IsTotal.total p q)
          (fun _ _ _ h1 h2 => IsTrans.trans _ _ _ h1 h2) b))

/-- `str.lower()` (`String.toLower` restated over the character list, which
the kernel can evaluate). -/
def pyLower (s : String) : String := String.mk (s.toList.map Char.toLower)

/-- `s.startswith(pre)` (`String.startsWith` restated over the character
lists, which the kernel can evaluate). -/
def pyStartsWith (s pre : String) : Bool := pre.toList.isPrefixOf s.toList

/-- The suffix of a basename starting at its last dot, ignoring the leading
dots (`none` when the remainder has no dot). -/
def lastDotSuffix : List Char → Option (List Char)
  | [] => none
  | c :: cs =>
    match lastDotSuffix cs with
    | some suf => some suf
    | none => if c = '.' then some (c :: cs) else none

/-- `os.path.splitext(name)[1]`: the extension of a basename — the suffix
starting at the last dot, where leading dots do not count. -/
def splitextExt (name : String) : String :=
  match lastDotSuffix (name.toList.dropWhile (fun c => c == '.')) with
  | some suf => String.mk suf
  | none => ""

/-- `os.path.splitext(file_path)[1].lower()` on a canonical path. -/
def file_ext (p : FsPath) : String := pyLower (splitextExt (p.getLastD ""))

/-- One pass of the per-file loop of the File-Contents section
(`output_generator.py` lines 196–246): the block of lines this file
contributes and its contribution to `files_content_included_count`.  The
human-readable megabyte figure of the too-large message is rendered as the
raw byte count (the source formats `size / 1024**2` to two decimals;
floating-point text layout is outside the model).  A file whose extension is
in `IGNORE_EXTENSIONS` contributes nothing: the marker that used to be
emitted is commented out in the source. -/
def content_block_for_file (cfg : Config) (fsys : List FSTree) (p : FsPath) :
    List String × Nat :=
  let ext := file_ext p
  let rel := displayRel p
  if ext ∈ cfg.TARGET_EXTENSIONS ∧ ext ∉ cfg.IGNORE_EXTENSIONS then
    match getsize fsys p with
    | Except.error e =>
      (["\n--- File: " ++ rel ++ " ---\n",
        "Error reading file: " ++ e ++ "\n",
        "--- END OF " ++ rel ++ " (ERROR) ---\n"], 0)
    | Except.ok file_size =>
      if file_size > cfg.MAX_FILE_SIZE_BYTES then
        (["\n--- File: " ++ rel ++ " ---\n",
          "Content skipped: File size (" ++ toString file_size ++
            " bytes) exceeds maximum (" ++ toString cfg.MAX_FILE_SIZE_MB ++ " MB).\n",
          "--- END OF " ++ rel ++ " (SKIPPED) ---\n"], 0)
      else if file_size = 0 then
        (["\n--- File: " ++ rel ++ " ---\n",
          "(This file is empty)\n",
          "--- END OF " ++ rel ++ " (EMPTY) ---\n"], 1)
      else
        match readFile fsys p with
        | Except.error e =>
          (["\n--- File: " ++ rel ++ " ---\n",
            "Error reading file: " ++ e ++ "\n",
            "--- END OF " ++ rel ++ " (ERROR) ---\n"], 0)
        | Except.ok content =>
          (["\n--- File: " ++ rel ++ " ---\n",
            content,
            "\n--- END OF " ++ rel ++ " ---\n"], 1)
  else if ext ∈ cfg.IGNORE_EXTENSIONS then
    ([], 0)
  else
    ([], 0)

/-- The File-Contents loop over the sorted file list: the concatenated
blocks and the total `files_content_included_count`. -/
def content_blocks (cfg : Config) (fsys : List FSTree) : List FsPath → List String × Nat
  | [] => ([], 0)
  | p :: ps =>
    let b := content_block_for_file cfg fsys p
    let rest := content_blocks cfg fsys ps
    (b.1 ++ rest.1, b.2 + rest.2)

/-! ### The tree serializer (`os.walk` loop of `generate_output_from_selection`) -/

/-- The two prunings applied to the `dirs` list of one `os.walk` iteration:
`dirs[:] = [d for d in dirs if not d.startswith(".") and d not in
config.IGNORE_DIRS]`, then removal of every directory the generation-time
exclusion check rejects; listing order is preserved. -/
def keptDirs (cfg : Config) (excl : Finset FsPath) (selRoot curPath : FsPath)
    (children : List FSTree) : List (String × List FSTree) :=
  ((children.filterMap fun t =>
      match t with
      | FSTree.dir n cs => some (n, cs)
      | FSTree.file .. => none).filter fun nc =>
        !(pyStartsWith nc.1 ".") && !(cfg.IGNORE_DIRS.contains nc.1)).filter fun nc =>
          !(is_path_excluded_for_generation (curPath ++ [nc.1]) selRoot excl)

/-- The `files` list of one `os.walk` iteration, in listing order. -/
def fileNames (children : List FSTree) : List String :=
  children.filterMap fun t =>
    match t with
    | FSTree.file n _ _ => some n
    | FSTree.dir .. => none

/-- Python's `"    " * n`. -/
def pyIndent (n : Nat) : String := String.join (List.replicate n "    ")

/-- The walk depth of the current directory relative to the walked selection
root (`relative_to_sel_root.count(os.sep) + 1`; `0` at the root itself and
on the unreachable not-a-descendant branch). -/
def walkDepth (selRoot curPath : FsPath) : Nat :=
  if selRoot <+: curPath then curPath.length - selRoot.length else 0

/-- `for dir_name in sorted(dirs): ...` — one `├── name/` line per child
directory not yet listed, each registered in
`paths_added_to_structure_output`. -/
def dirLinesLoop (ind : String) (curPath : FsPath) :
    List String → Finset FsPath → List String × Finset FsPath
  | [], added => ([], added)
  | n :: ns, added =>
    let p := curPath ++ [n]
    if p ∈ added then dirLinesLoop ind curPath ns added
    else
      let rest := dirLinesLoop ind curPath ns (insert p added)
      ((ind ++ "├── " ++ n ++ "/\n") :: rest.1, rest.2)

/-- `for file_name in sorted(files): ...` — skip hidden and
configured-ignored names, skip entries the generation-time exclusion check
rejects, emit a line for entries not yet listed, and add every surviving
file to the content file set (even when its line was deduplicated). -/
def filesLoop (cfg : Config) (excl : Finset FsPath) (selRoot : FsPath)
    (ind : String) (curPath : FsPath) :
    List String → Finset FsPath → Finset FsPath →
      List String × Finset FsPath × Finset FsPath
  | [], added, content => ([], added, content)
  | n :: ns, added, content =>
    if pyStartsWith n "." || cfg.IGNORE_FILES.contains n then
      filesLoop cfg excl selRoot ind curPath ns added content
    else
      let p := curPath ++ [n]
      if is_path_excluded_for_generation p selRoot excl then
        filesLoop cfg excl selRoot ind curPath ns added content
      else
        let emitted :=
          if p ∈ added then (([] : List String), added)
          else ([ind ++ "├── " ++ n ++ "\n"], insert p added)
        let rest := filesLoop cfg excl selRoot ind curPath ns emitted.2 (insert p content)
        (emitted.1 ++ rest.1, rest.2.1, rest.2.2)

/-- Everything one `os.walk` iteration appends for the currently walked
directory: its own `├── basename/` line when it is not the walked root and
was not already listed, then the sorted child-directory lines, then the
sorted, filtered child-file lines. -/
def level_emit (cfg : Config) (excl : Finset FsPath) (selRoot curPath : FsPath)
    (children : List FSTree) (added content : Finset FsPath) :
    List String × Finset FsPath × Finset FsPath :=
  let depth := walkDepth selRoot curPath
  let cur :=
    if curPath ≠ selRoot ∧ curPath ∉ added then
      ([pyIndent depth ++ "├── " ++ curPath.getLastD "" ++ "/\n"], insert curPath added)
    else (([] : List String), added)
  let dl := dirLinesLoop (pyIndent (depth + 1)) curPath
    (sortByRel strle ((keptDirs cfg excl selRoot curPath children).map Prod.fst)) cur.2
  let fl := filesLoop cfg excl selRoot (pyIndent (depth + 1)) curPath
    (sortByRel strle (fileNames children)) dl.2 content
  (cur.1 ++ dl.1 ++ fl.1, fl.2.1, fl.2.2)

/-- The `os.walk(sel_root_abs, topdown=True)` loop for one walked directory
and its subtree: emit this level, then recurse into the kept child
directories in listing order (`os.walk` recurses in the order of the pruned
`dirs` list, which the source never re-sorts).  `fuel` bounds the recursion
depth; callers supply at least the depth of the walked subtree, so the
zero case is never reached. -/
def walkDirNode (cfg : Config) (excl : Finset FsPath) (selRoot : FsPath) :
    Nat → FsPath → List FSTree → Finset FsPath → Finset FsPath →
      List String × Finset FsPath × Finset FsPath
  | 0, _, _, added, content => ([], added, content)
  | fuel + 1, curPath, children, added, content =>
    let lvl := level_emit cfg excl selRoot curPath children added content
    (keptDirs cfg excl selRoot curPath children).foldl
      (fun acc nc =>
        let sub := walkDirNode cfg excl selRoot fuel (curPath ++ [nc.1]) nc.2
          acc.2.1 acc.2.2
        (acc.1 ++ sub.1, sub.2.1, sub.2.2))
      lvl

mutual

/-- Depth of one filesystem node. -/
def depthTree : FSTree → Nat
  | FSTree.file _ _ _ => 0
  | FSTree.dir _ cs => depthList cs + 1

/-- Depth of a filesystem forest, used to provision walk fuel. -/
def depthList : List FSTree → Nat
  | [] => 0
  | t :: ts => max (depthTree t) (depthList ts)

end

/-- The `BOILERPLATE_PROMPT` constant of `output_generator.py`. -/
def BOILERPLATE_PROMPT : String :=
  "The following is a detailed overview of a software project.\n" ++
  "It includes the directory structure and the content of selected source code files.\n" ++
  "Please analyze this information to understand the project's components, relationships, and functionality.\n" ++
  "This context can be used to answer questions about the project, assist with debugging, suggest refactorings, or generate documentation.\n"

/-- The `for sel_root_orig_abs in sorted(list(selection_roots))` loop
(`output_generator.py` lines 83–187): a root present in
`explicit_exclusions` is skipped whole; otherwise its own line is emitted
unless already listed or strictly inside an already-listed directory, a file
root joins the content set, and a directory root is walked. -/
def roots_walk (cfg : Config) (fsys : List FSTree) (excl : Finset FsPath) :
    List FsPath → Finset FsPath → Finset FsPath →
      List String × Finset FsPath × Finset FsPath
  | [], added, content => ([], added, content)
  | selRoot :: rest, added, content =>
    if selRoot ∈ excl then roots_walk cfg fsys excl rest added content
    else
      let isDirR := isdir fsys selRoot
      let rl :=
        if selRoot ∉ added then
          (if ∃ q ∈ added, isdir fsys q = true ∧
                pyStartsWith (displayAbs selRoot) (displayAbs q ++ "/") = true
           then ([] : List String)
           else [displayRel selRoot ++ (if isDirR then "/" else "") ++ "\n"],
           insert selRoot added)
        else (([] : List String), added)
      let walked :=
        if isfile fsys selRoot then
          (([] : List String), rl.2, insert selRoot content)
        else if isDirR then
          match resolve fsys selRoot with
          | some (FSTree.dir _ cs) =>
            walkDirNode cfg excl selRoot (depthList cs + 1) selRoot cs rl.2 content
          | _ => ([], rl.2, content)
        else ([], rl.2, content)
      let r := roots_walk cfg fsys excl rest walked.2.1 walked.2.2
      (rl.1 ++ walked.1 ++ r.1, r.2.1, r.2.2)

/-- The result of `generate_output_from_selection` (`output_generator.py`
lines 37–259): structure section, content section, trailing summary, the
included-files count, and the returned status string.  Writing
`output.txt` is the excluded Artifact-Writer I/O step, so the model keeps
the text that would be written together with the success status string
(`files_processed_count` is computed by the source but never read). -/
structure GenResult where
  structure_output : List String
  content_output : List String
  summary : List String
  files_content_included_count : Nat
  status : String
deriving Repr

def generate_output_from_selection (cfg : Config) (fsys : List FSTree)
    (selection_roots explicit_exclusions : Finset FsPath)
    (output_filename : String) : GenResult :=
  let sortedRoots := sortPaths selection_roots
  let walked := roots_walk cfg fsys explicit_exclusions sortedRoots ∅ ∅
  let header : List String :=
    [BOILERPLATE_PROMPT ++ "\n",
     "PROJECT CONTEXT OVERVIEW\n",
     "========================\n\n",
     "SELECTION ROOTS (items explicitly chosen to start the project scan):\n"] ++
    (if selection_roots = ∅ then
      ["(No specific items were chosen as selection roots for this overview.)\n"]
     else []) ++
    sortedRoots.map (fun p => "- " ++ displayRel p ++ "\n") ++
    (if explicit_exclusions ≠ ∅ then
      "\nEXPLICIT EXCLUSIONS (items specifically excluded from the scan):\n" ::
        (sortPaths explicit_exclusions).map (fun p => "- " ++ displayRel p ++ "\n")
     else []) ++
    ["\nCOMBINED PROJECT STRUCTURE (based on selections and exclusions):\n"] ++
    (if selection_roots = ∅ then
      ["(Project structure is empty as no selection roots were defined.)\n"]
     else [])
  let contentFiles := walked.2.2
  let blocks := content_blocks cfg fsys (sortPaths contentFiles)
  let contentOut :=
    if contentFiles = ∅ then
      ["\n--- File Contents ---\n",
       "(No files selected or all selected files were empty/inaccessible/too large/ignored.)\n"]
    else
      "\n\n--- File Contents ---\n" :: blocks.1
  { structure_output := header ++ walked.1
    content_output := contentOut
    summary := ["\n\n--- End of Project Overview ---\n"]
    files_content_included_count := blocks.2
    status := "Output generated to " ++ output_filename ++ ". " ++
      toString blocks.2 ++ " files' content included." }

/-! ### Helper lemmas about canonical paths -/

lemma dropLast_prefix_self (l : FsPath) : l.dropLast <+: l := by
  rw [List.dropLast_eq_take]
  exact List.take_prefix _ l

lemma dropLast_ne_self {l : FsPath} (h : l ≠ []) : l.dropLast ≠ l := by
  intro he
  have hlen := congrArg List.length he
  rw [List.length_dropLast] at hlen
  have hpos : 0 < l.length := List.length_pos.mpr h
  omega

lemma prefix_antisymm {a b : FsPath} (h1 : a <+: b) (h2 : b <+: a) : a = b := by
  have hl1 := h1.length_le
  have hl2 := h2.length_le
  have hlen : a.length = b.length := le_antisymm hl1 hl2
  rw [List.prefix_iff_eq_take] at h1
  rw [h1, hlen, List.take_length]

lemma prefix_dropLast {d p : FsPath} (h : d <+: p) (hne : d ≠ p) :
    d <+: p.dropLast := by
  have hlt : d.length < p.length := by
    rcases lt_or_eq_of_le h.length_le with h' | h'
    · exact h'
    · exact absurd (by rw [List.prefix_iff_eq_take] at h; rw [h, h', List.take_length])
        hne
  rw [List.prefix_iff_eq_take] at h
  rw [List.prefix_iff_eq_take, List.dropLast_eq_take, List.take_take,
    min_eq_left (by omega)]
  exact h

/-! ### Characterizations of the climbing loops -/

lemma findNearestRootFuel_sound {roots : Finset FsPath} {fuel : Nat} {p r : FsPath}
    (h : findNearestRootFuel roots fuel p = some r) : r ∈ roots ∧ r <+: p := by
  induction fuel generalizing p with
  | zero => simp [findNearestRootFuel] at h
  | succ f ih =>
    rw [findNearestRootFuel] at h
    split_ifs at h with h1 h2
    · obtain rfl := Option.some.inj h
      exact ⟨h1, List.prefix_refl _⟩
    · obtain ⟨hr, hpre⟩ := ih h
      exact ⟨hr, hpre.trans (dropLast_prefix_self p)⟩

lemma findNearestRootFuel_maximal {roots : Finset FsPath} {fuel : Nat}
    {p r q : FsPath} (hfuel : p.length < fuel)
    (h : findNearestRootFuel roots fuel p = some r)
    (hq : q ∈ roots) (hqp : q <+: p) : q.length ≤ r.length := by
  induction fuel generalizing p with
  | zero => omega
  | succ f ih =>
    rw [findNearestRootFuel] at h
    split_ifs at h with h1 h2
    · obtain rfl := Option.some.inj h
      exact hqp.length_le
    · have hqnep : q ≠ p := fun he => h1 (he ▸ hq)
      have hpnil : p ≠ [] := by
        rintro rfl
        exact h2 rfl
      have hflt : p.dropLast.length < f := by
        rw [List.length_dropLast]
        have := List.length_pos.mpr hpnil
        omega
      exact ih hflt h (prefix_dropLast hqp hqnep)

lemma findNearestRootFuel_isSome {roots : Finset FsPath} {fuel : Nat} {p R : FsPath}
    (hfuel : p.length < fuel) (hR : R ∈ roots) (hRp : R <+: p) :
    ∃ r, findNearestRootFuel roots fuel p = some r := by
  induction fuel generalizing p with
  | zero => omega
  | succ f ih =>
    rw [findNearestRootFuel]
    by_cases h1 : p ∈ roots
    · exact ⟨p, by rw [if_pos h1]⟩
    · have hne : R ≠ p := fun he => h1 (he ▸ hR)
      have hpnil : p ≠ [] := by
        rintro rfl
        exact hne (List.prefix_nil.mp hRp)
      have hd : p.dropLast ≠ p := dropLast_ne_self hpnil
      rw [if_neg h1, if_neg hd]
      have hflt : p.dropLast.length < f := by
        rw [List.length_dropLast]
        have := List.length_pos.mpr hpnil
        omega
      exact ih hflt (prefix_dropLast hRp hne)

lemma walkDownFuel_false_iff {excl : Finset FsPath} {B p : FsPath} {fuel : Nat}
    (hpre : B <+: p) (hfuel : p.length < fuel) :
    walkDownFuel excl B fuel p = false ↔
      ∃ D, D ∈ excl ∧ B <+: D ∧ D <+: p ∧ D ≠ B := by
  induction fuel generalizing p with
  | zero => omega
  | succ f ih =>
    rw [walkDownFuel]
    by_cases h1 : p = B
    · subst h1
      rw [if_pos rfl]
      simp only [Bool.true_eq_false, false_iff]
      rintro ⟨D, _, hBD, hDB, hne⟩
      exact hne (prefix_antisymm hDB hBD)
    · rw [if_neg h1]
      by_cases h2 : p ∈ excl
      · rw [if_pos h2]
        simp only [true_iff]
        exact ⟨p, h2, hpre, List.prefix_refl p, h1⟩
      · rw [if_neg h2]
        have hpnil : p ≠ [] := by
          rintro rfl
          exact h1 (List.prefix_nil.mp hpre).symm
        have hd : p.dropLast ≠ p := dropLast_ne_self hpnil
        rw [if_neg hd, if_neg (not_not_intro hpre)]
        have hpre' : B <+: p.dropLast :=
          prefix_dropLast hpre (fun he => h1 he.symm)
        have hflt : p.dropLast.length < f := by
          rw [List.length_dropLast]
          have := List.length_pos.mpr hpnil
          omega
        rw [ih hpre' hflt]
        constructor
        · rintro ⟨D, hD, hBD, hDp, hne⟩
          exact ⟨D, hD, hBD, hDp.trans (dropLast_prefix_self p), hne⟩
        · rintro ⟨D, hD, hBD, hDp, hne⟩
          have hDnep : D ≠ p := fun he => h2 (he ▸ hD)
          exact ⟨D, hD, hBD, prefix_dropLast hDp hDnep, hne⟩

lemma genExclFuel_true_iff {excl : Finset FsPath} {R p : FsPath} {fuel : Nat}
    (hpre : R <+: p) (hfuel : p.length < fuel) :
    genExclFuel excl R fuel p = true ↔ ∃ D, D ∈ excl ∧ R <+: D ∧ D <+: p := by
  induction fuel generalizing p with
  | zero => omega
  | succ f ih =>
    rw [genExclFuel]
    by_cases h2 : p ∈ excl
    · rw [if_pos h2]
      simp only [true_iff]
      exact ⟨p, h2, hpre, List.prefix_refl p⟩
    · rw [if_neg h2]
      by_cases h1 : p = R
      · subst h1
        rw [if_pos rfl]
        simp only [Bool.false_eq_true, false_iff]
        rintro ⟨D, hD, hRD, hDR⟩
        exact h2 ((prefix_antisymm hDR hRD) ▸ hD)
      · rw [if_neg h1]
        have hpnil : p ≠ [] := by
          rintro rfl
          exact h1 (List.prefix_nil.mp hpre).symm
        have hd : p.dropLast ≠ p := dropLast_ne_self hpnil
        rw [if_neg hd, if_neg (not_not_intro hpre)]
        have hpre' : R <+: p.dropLast :=
          prefix_dropLast hpre (fun he => h1 he.symm)
        have hflt : p.dropLast.length < f := by
          rw [List.length_dropLast]
          have := List.length_pos.mpr hpnil
          omega
        rw [ih hpre' hflt]
        constructor
        · rintro ⟨D, hD, hRD, hDp⟩
          exact ⟨D, hD, hRD, hDp.trans (dropLast_prefix_self p)⟩
        · rintro ⟨D, hD, hRD, hDp⟩
          have hDnep : D ≠ p := fun he => h2 (he ▸ hD)
          exact ⟨D, hD, hRD, prefix_dropLast hDp hDnep⟩

lemma is_path_excluded_for_generation_iff {excl : Finset FsPath} {R p : FsPath}
    (hpre : R <+: p) :
    is_path_excluded_for_generation p R excl = true ↔
      ∃ D, D ∈ excl ∧ R <+: D ∧ D <+: p :=
  genExclFuel_true_iff hpre (by omega)

/-! ### Basic facts about the resolver and the toggle -/

lemma eff_selected_of_mem_roots {P : FsPath} {roots excl : Finset FsPath}
    (h : P ∈ roots) : is_effectively_selected P roots excl = true := by
  unfold is_effectively_selected findNearestRoot
  rw [findNearestRootFuel, if_pos h]
  simp

lemma not_mem_roots_of_not_eff {P : FsPath} {roots excl : Finset FsPath}
    (h : is_effectively_selected P roots excl = false) : P ∉ roots := by
  intro hm
  rw [eff_selected_of_mem_roots hm] at h
  cases h

/-! ### Claim C1 -/

/-- C1 (counterexample): for `P = /a` with `roots = {}` and
`exclusions = {/a}` — a stale/inert exclusion — `P` is effectively
unselected, yet `toggle(P)` does **not** add `P` to `roots`: it only removes
the stale exclusion, and `P` is still not root-selected afterwards.  This
refutes the claim that toggling any unselected path always promotes it to a
root. -/
theorem c1_counterexample :
    is_effectively_selected ["a"] (∅ : Finset FsPath) {["a"]} = false
    ∧ toggle ["a"] (∅ : Finset FsPath) {["a"]} = (∅, ∅)
    ∧ is_effectively_selected ["a"] (toggle ["a"] (∅ : Finset FsPath) {["a"]}).1
        (toggle ["a"] (∅ : Finset FsPath) {["a"]}).2 = false := by
  decide

/-- C1 (amended): toggling an effectively-unselected path `P` adds `P` to
`roots` (making it root-selected) only when `P` is not itself in
`exclusions`; when `P` carries a stale exclusion, the toggle merely removes
`P` from `exclusions` and leaves `roots` unchanged. -/
theorem c1_amended (P : FsPath) (roots excl : Finset FsPath)
    (h : is_effectively_selected P roots excl = false) :
    (P ∉ excl →
      toggle P roots excl = (insert P roots, excl) ∧
      is_effectively_selected P (insert P roots) excl = true) ∧
    (P ∈ excl → toggle P roots excl = (roots, excl.erase P)) := by
  constructor
  · intro hne
    refine ⟨?_, eff_selected_of_mem_roots (Finset.mem_insert_self P roots)⟩
    simp [toggle, h, hne, Finset.erase_eq_of_not_mem hne]
  · intro hmem
    simp [toggle, h, hmem]

/-- C1 (witness for the amended theorem), at `P = /a`, empty sets. -/
theorem c1_amended_witness :
    toggle ["a"] (∅ : Finset FsPath) ∅ = (insert ["a"] ∅, ∅) ∧
    is_effectively_selected ["a"] (insert ["a"] (∅ : Finset FsPath)) ∅ = true :=
  (c1_amended ["a"] ∅ ∅ (by decide)).1 (by decide)

/-! ### Claim C6 -/

/-- C6 (counterexample): for `P = /a`, `roots = {}`,
`exclusions = {/a}` (a stale exclusion on `P` itself), `P` is unselected;
toggling twice yields `roots = {/a}`, `exclusions = {}` — the roots set is
not restored and `P` ends up root-selected, not unselected.  This refutes
the claimed double-toggle law for exactly the stale-exclusion case it
purports to cover. -/
theorem c6_counterexample :
    is_effectively_selected ["a"] (∅ : Finset FsPath) {["a"]} = false
    ∧ toggle ["a"] (toggle ["a"] (∅ : Finset FsPath) {["a"]}).1
        (toggle ["a"] (∅ : Finset FsPath) {["a"]}).2 = ({["a"]}, ∅)
    ∧ is_effectively_selected ["a"] ({["a"]} : Finset FsPath) ∅ = true := by
  decide

/-- C6 (amended): toggling twice from the unselected state restores both
sets exactly (hence returns the path to the unselected effective state)
provided the path carries no stale exclusion; with a stale exclusion the two
toggles instead clear the exclusion and promote the path to a root. -/
theorem c6_amended (P : FsPath) (roots excl : Finset FsPath)
    (h1 : is_effectively_selected P roots excl = false) (h2 : P ∉ excl) :
    toggle P (toggle P roots excl).1 (toggle P roots excl).2 = (roots, excl) := by
  have hnr : P ∉ roots := not_mem_roots_of_not_eff h1
  have ht1 : toggle P roots excl = (insert P roots, excl) := by
    simp [toggle, h1, h2, Finset.erase_eq_of_not_mem h2]
  rw [ht1]
  have hsel : is_effectively_selected P (insert P roots) excl = true :=
    eff_selected_of_mem_roots (Finset.mem_insert_self P roots)
  simp [toggle, hsel, Finset.mem_insert_self, Finset.erase_insert hnr,
    Finset.erase_eq_of_not_mem h2]

/-- C6 (witness for the amended theorem), at `P = /a`, empty sets. -/
theorem c6_amended_witness :
    toggle ["a"] (toggle ["a"] (∅ : Finset FsPath) ∅).1
      (toggle ["a"] (∅ : Finset FsPath) ∅).2 = (∅, ∅) :=
  c6_amended ["a"] ∅ ∅ (by decide) (by decide)

/-! ### Claim C7 -/

/-- C7: a path that is itself a member of `roots` is always effectively
selected, even when it also appears in `exclusions`; and for a non-root path
selected via its nearest enclosing root `B`, the resolver answers `false`
exactly when some exclusion lies on the chain from the path down to — but
excluding — `B`: exclusions at or above `B` cannot affect the result. -/
theorem c7_resolver_root_and_exclusion_scope (P B : FsPath)
    (roots excl : Finset FsPath) :
    (P ∈ roots → is_effectively_selected P roots excl = true) ∧
    (findNearestRoot roots P = some B → B ≠ P →
      (is_effectively_selected P roots excl = false ↔
        ∃ D, D ∈ excl ∧ B <+: D ∧ D <+: P ∧ D ≠ B)) := by
  refine ⟨fun h => eff_selected_of_mem_roots h, ?_⟩
  intro hfind hne
  obtain ⟨hBr, hBp⟩ := findNearestRootFuel_sound hfind
  unfold is_effectively_selected
  rw [hfind]
  rw [show (match some B with
      | none => false
      | some selected_ancestor_root =>
        if P = selected_ancestor_root then true
        else walkDownFuel excl selected_ancestor_root (P.length + 1) P) =
      (if P = B then true
        else walkDownFuel excl B (P.length + 1) P) from rfl]
  rw [if_neg (fun he => hne he.symm)]
  exact walkDownFuel_false_iff hBp (by omega)

/-- C7 (witness): at `roots = {/r}` the root `/r` is selected despite its
own exclusion, and `/r/x`, resolved through the nearest root `/r`, is
unselected exactly because of its own exclusion strictly below `/r`. -/
theorem c7_witness :
    is_effectively_selected ["r"] ({["r"]} : Finset FsPath) {["r"]} = true ∧
    (is_effectively_selected ["r", "x"] ({["r"]} : Finset FsPath) {["r", "x"]} = false ↔
      ∃ D, D ∈ ({["r", "x"]} : Finset FsPath) ∧ ["r"] <+: D ∧ D <+: ["r", "x"] ∧
        D ≠ ["r"]) :=
  ⟨(c7_resolver_root_and_exclusion_scope ["r"] ["r"] {["r"]} {["r"]}).1 (by decide),
   (c7_resolver_root_and_exclusion_scope ["r", "x"] ["r"] {["r"]} {["r", "x"]}).2
     (by decide) (by decide)⟩

/-! ### Claim C10 -/

lemma toggle_inter_empty {P : FsPath} {r e : Finset FsPath} (h : r ∩ e = ∅) :
    (toggle P r e).1 ∩ (toggle P r e).2 = ∅ := by
  have hme : ∀ {x : FsPath}, x ∈ r → x ∈ e → False := by
    intro x hxr hxe
    have hx : x ∈ r ∩ e := Finset.mem_inter.mpr ⟨hxr, hxe⟩
    rw [h] at hx
    exact absurd hx (Finset.not_mem_empty x)
  unfold toggle
  split_ifs with hsel hm hm2
  · apply Finset.eq_empty_iff_forall_not_mem.mpr
    intro x hx
    rw [Finset.mem_inter, Finset.mem_erase, Finset.mem_erase] at hx
    exact hme hx.1.2 hx.2.2
  · apply Finset.eq_empty_iff_forall_not_mem.mpr
    intro x hx
    rw [Finset.mem_inter, Finset.mem_insert] at hx
    rcases hx.2 with rfl | hxe
    · exact hm hx.1
    · exact hme hx.1 hxe
  · apply Finset.eq_empty_iff_forall_not_mem.mpr
    intro x hx
    rw [Finset.mem_inter, Finset.mem_erase] at hx
    exact hme hx.1 hx.2.2
  · apply Finset.eq_empty_iff_forall_not_mem.mpr
    intro x hx
    rw [Finset.mem_inter, Finset.mem_insert, Finset.mem_erase] at hx
    rcases hx.1 with rfl | hxr
    · exact hx.2.1 rfl
    · exact hme hxr hx.2.2

/-- C10: every selection state reachable from the empty initial state by
completed toggle operations keeps `roots` and `exclusions` disjoint — each
transition that inserts a path into one set removes (or never adds) it in
the other. -/
theorem c10_reachable_states_disjoint (r e : Finset FsPath)
    (h : ReachableSel r e) : r ∩ e = ∅ := by
  induction h with
  | init => rfl
  | toggleStep P r' e' _ ih => exact toggle_inter_empty ih

/-- C10 (witness): the state after one toggle from the initial state is
disjoint. -/
theorem c10_witness :
    (toggle ["a"] (∅ : Finset FsPath) ∅).1 ∩ (toggle ["a"] (∅ : Finset FsPath) ∅).2
      = ∅ :=
  c10_reachable_states_disjoint _ _ (ReachableSel.toggleStep ["a"] ∅ ∅ ReachableSel.init)

/-! ### Claim C2 -/

/-- C2: for a candidate entry `P` visited during the serializer's walk of a
selection root `R`, the generation-time check agrees with the
Effective-Selection Resolver: the entry is skipped exactly when
`is_effectively_selected` is false.  The hypotheses state exactly what holds
at every such visit: `roots` and `exclusions` are disjoint (the invariant of
every reachable selection state), `R` is the walked root, `P` lies strictly
below `R`, and no strict ancestor of `P` at or below `R` is excluded — by
line 86 of `output_generator.py` an excluded root is never walked, and by
the `dirs` pruning an entry below an excluded directory is never visited. -/
theorem c2_generation_check_matches_resolver
    (roots excl : Finset FsPath) (R P : FsPath)
    (hdisj : roots ∩ excl = ∅) (hR : R ∈ roots)
    (hpre : R <+: P) (_hne : R ≠ P)
    (hvisited : ∀ D, R <+: D → D <+: P → D ≠ P → D ∉ excl) :
    (is_path_excluded_for_generation P R excl = true ↔
      is_effectively_selected P roots excl = false) := by
  have hme : ∀ {x : FsPath}, x ∈ roots → x ∈ excl → False := by
    intro x hxr hxe
    have hx : x ∈ roots ∩ excl := Finset.mem_inter.mpr ⟨hxr, hxe⟩
    rw [hdisj] at hx
    exact absurd hx (Finset.not_mem_empty x)
  have hgen : (is_path_excluded_for_generation P R excl = true) ↔ P ∈ excl := by
    rw [is_path_excluded_for_generation_iff hpre]
    constructor
    · rintro ⟨D, hD, hRD, hDP⟩
      by_cases hDp : D = P
      · exact hDp ▸ hD
      · exact absurd hD (hvisited D hRD hDP hDp)
    · intro hP
      exact ⟨P, hP, hpre, List.prefix_refl P⟩
  rw [hgen]
  by_cases hProots : P ∈ roots
  · rw [eff_selected_of_mem_roots hProots]
    simp only [Bool.true_eq_false, iff_false]
    exact fun hP => hme hProots hP
  · obtain ⟨B, hfind⟩ :=
      @findNearestRootFuel_isSome roots (P.length + 1) P R (by omega) hR hpre
    obtain ⟨hBr, hBp⟩ := findNearestRootFuel_sound hfind
    have hBneP : B ≠ P := fun he => hProots (he ▸ hBr)
    have hRB : R <+: B := by
      have hlen : R.length ≤ B.length :=
        findNearestRootFuel_maximal (by omega) hfind hR hpre
      exact List.prefix_of_prefix_length_le hpre hBp hlen
    unfold is_effectively_selected findNearestRoot
    rw [hfind]
    rw [show (match some B with
        | none => false
        | some selected_ancestor_root =>
          if P = selected_ancestor_root then true
          else walkDownFuel excl selected_ancestor_root (P.length + 1) P) =
        (if P = B then true
          else walkDownFuel excl B (P.length + 1) P) from rfl]
    rw [if_neg (fun he => hBneP he.symm)]
    rw [walkDownFuel_false_iff hBp (by omega)]
    constructor
    · intro hP
      exact ⟨P, hP, hBp, List.prefix_refl P, fun he => hBneP he.symm⟩
    · rintro ⟨D, hD, hBD, hDP, hDB⟩
      by_cases hDp : D = P
      · exact hDp ▸ hD
      · exact absurd hD (hvisited D (hRB.trans hBD) hDP hDp)

/-- C2 (witness): walking root `/r` with `exclusions = {/r/x}`, the entry
`/r/x` is rejected by the generation-time check exactly as the resolver
reports it unselected. -/
theorem c2_witness :
    is_path_excluded_for_generation ["r", "x"] ["r"] ({["r", "x"]} : Finset FsPath)
        = true ↔
      is_effectively_selected ["r", "x"] ({["r"]} : Finset FsPath) {["r", "x"]}
        = false :=
  c2_generation_check_matches_resolver {["r"]} {["r", "x"]} ["r"] ["r", "x"]
    (by decide) (by decide) (by decide) (by decide)
    (fun D _ _ hDne hDmem => hDne (Finset.mem_singleton.mp hDmem))

/-! ### Claim C3 -/

/-- C3 (counterexample): with `IGNORE_EXTENSIONS = [".png"]` and the single
selected file `/a.png`, the content section of the generated artifact
consists of the section header alone — no "skipped — ignored type" marker
block is emitted for the file, and it is not counted.  This refutes the
claim that an ignored-extension file yields a marker block: the source
explicitly passes (the marker emission is commented out). -/
theorem c3_counterexample :
    (generate_output_from_selection ⟨[], [], [".png"], [".py"], 1000, 1⟩
        [FSTree.file "a.png" (Except.ok 5) (Except.ok "x")]
        {["a.png"]} ∅ "output.txt").content_output
      = ["\n\n--- File Contents ---\n"]
    ∧ (generate_output_from_selection ⟨[], [], [".png"], [".py"], 1000, 1⟩
        [FSTree.file "a.png" (Except.ok 5) (Except.ok "x")]
        {["a.png"]} ∅ "output.txt").files_content_included_count = 0
    ∧ file_ext ["a.png"] ∈ [".png"] := by
  decide

/-- C3 (amended): a file whose extension is in the configured
`IGNORE_EXTENSIONS` contributes nothing to the content section — no marker
block, no inclusion count — and the emitter silently moves on to the next
file. -/
theorem c3_amended (cfg : Config) (fsys : List FSTree) (p : FsPath)
    (h : file_ext p ∈ cfg.IGNORE_EXTENSIONS) :
    content_block_for_file cfg fsys p = ([], 0) := by
  have hgate : ¬ (file_ext p ∈ cfg.TARGET_EXTENSIONS ∧
      file_ext p ∉ cfg.IGNORE_EXTENSIONS) := fun hc => hc.2 h
  simp [content_block_for_file, hgate, h]

/-- C3 (witness for the amended theorem). -/
theorem c3_amended_witness :
    content_block_for_file ⟨[], [], [".png"], [".py"], 1000, 1⟩
      [FSTree.file "a.png" (Except.ok 5) (Except.ok "x")] ["a.png"] = ([], 0) :=
  c3_amended ⟨[], [], [".png"], [".py"], 1000, 1⟩
    [FSTree.file "a.png" (Except.ok 5) (Except.ok "x")] ["a.png"] (by decide)

/-! ### Claim C8 -/

/-- C8 (counterexample): a 0-byte file whose extension is in neither
`IGNORE_EXTENSIONS` nor `TARGET_EXTENSIONS` produces no content block at all
and is not counted — the source gates every content block (including the
empty-file marker) on membership in the undocumented `TARGET_EXTENSIONS`
list, refuting the claim for files that pass the spec's only extension
policy (the ignore list). -/
theorem c8_counterexample :
    getsize [FSTree.file "a.zero" (Except.ok 0) (Except.ok "")] ["a.zero"]
        = Except.ok 0
    ∧ file_ext ["a.zero"] ∉ ([] : List String)
    ∧ (generate_output_from_selection ⟨[], [], [], [".py"], 1000, 1⟩
        [FSTree.file "a.zero" (Except.ok 0) (Except.ok "")]
        {["a.zero"]} ∅ "output.txt").content_output
      = ["\n\n--- File Contents ---\n"]
    ∧ (generate_output_from_selection ⟨[], [], [], [".py"], 1000, 1⟩
        [FSTree.file "a.zero" (Except.ok 0) (Except.ok "")]
        {["a.zero"]} ∅ "output.txt").files_content_included_count = 0 := by
  decide

/-- C8 (amended): a 0-byte file whose extension passes the full
generation-time extension gate (in `TARGET_EXTENSIONS` and not in
`IGNORE_EXTENSIONS`) produces the "(This file is empty)" block with both the
start marker and the `(EMPTY)` end marker and is counted as included; and
the status string always reports exactly
`files_content_included_count`. -/
theorem c8_amended (cfg : Config) (fsys : List FSTree) (p : FsPath)
    (roots excl : Finset FsPath) (fn : String)
    (htgt : file_ext p ∈ cfg.TARGET_EXTENSIONS)
    (hign : file_ext p ∉ cfg.IGNORE_EXTENSIONS)
    (hz : getsize fsys p = Except.ok 0) :
    content_block_for_file cfg fsys p =
      (["\n--- File: " ++ displayRel p ++ " ---\n",
        "(This file is empty)\n",
        "--- END OF " ++ displayRel p ++ " (EMPTY) ---\n"], 1)
    ∧ (generate_output_from_selection cfg fsys roots excl fn).status =
        "Output generated to " ++ fn ++ ". " ++
          toString (generate_output_from_selection cfg fsys roots excl fn).files_content_included_count
          ++ " files' content included." := by
  constructor
  · simp [content_block_for_file, htgt, hign, hz]
  · rfl

/-- C8 (witness for the amended theorem). -/
theorem c8_amended_witness :
    content_block_for_file ⟨[], [], [], [".py"], 1000, 1⟩
        [FSTree.file "empty.py" (Except.ok 0) (Except.ok "")] ["empty.py"] =
      (["\n--- File: " ++ displayRel ["empty.py"] ++ " ---\n",
        "(This file is empty)\n",
        "--- END OF " ++ displayRel ["empty.py"] ++ " (EMPTY) ---\n"], 1)
    ∧ (generate_output_from_selection ⟨[], [], [], [".py"], 1000, 1⟩
        [FSTree.file "empty.py" (Except.ok 0) (Except.ok "")]
        {["empty.py"]} ∅ "output.txt").status =
      "Output generated to " ++ "output.txt" ++ ". " ++
        toString (generate_output_from_selection ⟨[], [], [], [".py"], 1000, 1⟩
          [FSTree.file "empty.py" (Except.ok 0) (Except.ok "")]
          {["empty.py"]} ∅ "output.txt").files_content_included_count
        ++ " files' content included." :=
  c8_amended ⟨[], [], [], [".py"], 1000, 1⟩
    [FSTree.file "empty.py" (Except.ok 0) (Except.ok "")] ["empty.py"]
    {["empty.py"]} ∅ "output.txt" (by decide) (by decide) (by decide)

/-! ### Claim C9 -/

lemma content_blocks_append (cfg : Config) (fsys : List FSTree)
    (l1 l2 : List FsPath) :
    content_blocks cfg fsys (l1 ++ l2) =
      ((content_blocks cfg fsys l1).1 ++ (content_blocks cfg fsys l2).1,
       (content_blocks cfg fsys l1).2 + (content_blocks cfg fsys l2).2) := by
  induction l1 with
  | nil => simp [content_blocks]
  | cons p ps ih =>
    simp only [List.cons_append, content_blocks, List.append_eq]
    rw [ih]
    simp [List.append_assoc, Nat.add_assoc]

/-- C9: an error raised while determining a content file's size or reading
its content is caught locally and becomes an inline three-line error block
naming that file (start marker, `Error reading file: ...`, `(ERROR)` end
marker) contributing nothing to the inclusion count, and the emitter
continues unchanged with the files before and after it — the loop never
aborts on a single bad file (the embedding is a total function: no
exception escapes). -/
theorem c9_read_error_isolated (cfg : Config) (fsys : List FSTree)
    (pre post : List FsPath) (p : FsPath) (e : String)
    (htgt : file_ext p ∈ cfg.TARGET_EXTENSIONS)
    (hign : file_ext p ∉ cfg.IGNORE_EXTENSIONS)
    (herr : getsize fsys p = Except.error e ∨
      ∃ s, getsize fsys p = Except.ok s ∧ ¬ s > cfg.MAX_FILE_SIZE_BYTES ∧
        s ≠ 0 ∧ readFile fsys p = Except.error e) :
    content_block_for_file cfg fsys p =
      (["\n--- File: " ++ displayRel p ++ " ---\n",
        "Error reading file: " ++ e ++ "\n",
        "--- END OF " ++ displayRel p ++ " (ERROR) ---\n"], 0)
    ∧ (content_blocks cfg fsys (pre ++ p :: post)).1 =
        (content_blocks cfg fsys pre).1 ++
          ["\n--- File: " ++ displayRel p ++ " ---\n",
           "Error reading file: " ++ e ++ "\n",
           "--- END OF " ++ displayRel p ++ " (ERROR) ---\n"] ++
          (content_blocks cfg fsys post).1
    ∧ (content_blocks cfg fsys (pre ++ p :: post)).2 =
        (content_blocks cfg fsys pre).2 + (content_blocks cfg fsys post).2 := by
  have hblock : content_block_for_file cfg fsys p =
      (["\n--- File: " ++ displayRel p ++ " ---\n",
        "Error reading file: " ++ e ++ "\n",
        "--- END OF " ++ displayRel p ++ " (ERROR) ---\n"], 0) := by
    rcases herr with hsz | ⟨s, hs, hmax, hz, hrd⟩
    · simp [content_block_for_file, htgt, hign, hsz]
    · simp [content_block_for_file, htgt, hign, hs, hmax, hz, hrd]
  refine ⟨hblock, ?_, ?_⟩
  · rw [content_blocks_append]
    simp only [content_blocks, hblock]
    simp
  · rw [content_blocks_append]
    simp only [content_blocks, hblock]
    simp

/-- C9 (witness): a file whose read raises `Permission denied` yields the
inline error block; with one file before it and one after it both
neighbours are still emitted. -/
theorem c9_witness :
    content_block_for_file ⟨[], [], [], [".py"], 1000, 1⟩
        [FSTree.file "bad.py" (Except.ok 5) (Except.error "Permission denied")]
        ["bad.py"] =
      (["\n--- File: " ++ displayRel ["bad.py"] ++ " ---\n",
        "Error reading file: " ++ "Permission denied" ++ "\n",
        "--- END OF " ++ displayRel ["bad.py"] ++ " (ERROR) ---\n"], 0)
    ∧ (content_blocks ⟨[], [], [], [".py"], 1000, 1⟩
        [FSTree.file "bad.py" (Except.ok 5) (Except.error "Permission denied")]
        ([["a.py"]] ++ ["bad.py"] :: [["z.py"]])).1 =
      (content_blocks ⟨[], [], [], [".py"], 1000, 1⟩
        [FSTree.file "bad.py" (Except.ok 5) (Except.error "Permission denied")]
        [["a.py"]]).1 ++
        ["\n--- File: " ++ displayRel ["bad.py"] ++ " ---\n",
         "Error reading file: " ++ "Permission denied" ++ "\n",
         "--- END OF " ++ displayRel ["bad.py"] ++ " (ERROR) ---\n"] ++
        (content_blocks ⟨[], [], [], [".py"], 1000, 1⟩
          [FSTree.file "bad.py" (Except.ok 5) (Except.error "Permission denied")]
          [["z.py"]]).1
    ∧ (content_blocks ⟨[], [], [], [".py"], 1000, 1⟩
        [FSTree.file "bad.py" (Except.ok 5) (Except.error "Permission denied")]
        ([["a.py"]] ++ ["bad.py"] :: [["z.py"]])).2 =
      (content_blocks ⟨[], [], [], [".py"], 1000, 1⟩
        [FSTree.file "bad.py" (Except.ok 5) (Except.error "Permission denied")]
        [["a.py"]]).2 +
      (content_blocks ⟨[], [], [], [".py"], 1000, 1⟩
        [FSTree.file "bad.py" (Except.ok 5) (Except.error "Permission denied")]
        [["z.py"]]).2 :=
  c9_read_error_isolated ⟨[], [], [], [".py"], 1000, 1⟩
    [FSTree.file "bad.py" (Except.ok 5) (Except.error "Permission denied")]
    [["a.py"]] [["z.py"]] ["bad.py"] "Permission denied"
    (by decide) (by decide)
    (Or.inr ⟨5, by decide, by decide, by decide, by decide⟩)

/-! ### Claims C4 and C5: structure of the walk's emitted lines -/

lemma mem_sortByRel {r : α → α → Prop} [DecidableRel r] {x : α} {l : List α}
    (h : x ∈ sortByRel r l) : x ∈ l := (sortByRel_perm r l).mem_iff.mp h

lemma keptDirs_clean {cfg : Config} {excl : Finset FsPath} {selRoot curPath : FsPath}
    {children : List FSTree} {n : String}
    (h : n ∈ (keptDirs cfg excl selRoot curPath children).map Prod.fst) :
    pyStartsWith n "." = false ∧ n ∉ cfg.IGNORE_DIRS := by
  obtain ⟨nc, hnc, rfl⟩ := List.mem_map.mp h
  unfold keptDirs at hnc
  have h1 := (List.mem_filter.mp hnc).1
  have h2 := (List.mem_filter.mp h1).2
  rw [Bool.and_eq_true, Bool.not_eq_true', Bool.not_eq_true'] at h2
  refine ⟨h2.1, fun hmem => ?_⟩
  have hc : cfg.IGNORE_DIRS.contains nc.1 = true := List.elem_eq_true_of_mem hmem
  rw [h2.2] at hc
  exact Bool.false_ne_true hc

lemma dirLinesLoop_shape (ind : String) (curPath : FsPath) :
    ∀ (names : List String) (added : Finset FsPath),
    ∃ dn : List String,
      (dirLinesLoop ind curPath names added).1 =
        dn.map (fun n => ind ++ "├── " ++ n ++ "/\n") ∧ List.Sublist dn names := by
  intro names
  induction names with
  | nil => exact fun _ => ⟨[], rfl, List.Sublist.refl []⟩
  | cons n ns ih =>
    intro added
    rw [dirLinesLoop]
    by_cases hmem : curPath ++ [n] ∈ added
    · rw [if_pos hmem]
      obtain ⟨dn, heq, hsub⟩ := ih added
      exact ⟨dn, heq, hsub.cons n⟩
    · rw [if_neg hmem]
      obtain ⟨dn, heq, hsub⟩ := ih (insert (curPath ++ [n]) added)
      exact ⟨n :: dn, by simp [heq], hsub.cons₂ n⟩

lemma filesLoop_shape (cfg : Config) (excl : Finset FsPath) (selRoot : FsPath)
    (ind : String) (curPath : FsPath) :
    ∀ (names : List String) (added content : Finset FsPath),
    ∃ fn : List String,
      (filesLoop cfg excl selRoot ind curPath names added content).1 =
        fn.map (fun n => ind ++ "├── " ++ n ++ "\n") ∧ List.Sublist fn names ∧
      ∀ n ∈ fn, pyStartsWith n "." = false ∧ n ∉ cfg.IGNORE_FILES := by
  intro names
  induction names with
  | nil => exact fun _ _ => ⟨[], rfl, List.Sublist.refl [], by simp⟩
  | cons n ns ih =>
    intro added content
    rw [filesLoop]
    by_cases hskip : pyStartsWith n "." || cfg.IGNORE_FILES.contains n
    · rw [if_pos hskip]
      obtain ⟨fn, heq, hsub, hclean⟩ := ih added content
      exact ⟨fn, heq, hsub.cons n, hclean⟩
    · rw [if_neg hskip]
      rw [Bool.or_eq_true, not_or, Bool.not_eq_true, Bool.not_eq_true] at hskip
      have hclean_n : pyStartsWith n "." = false ∧ n ∉ cfg.IGNORE_FILES := by
        refine ⟨hskip.1, fun hmem => ?_⟩
        have hc : cfg.IGNORE_FILES.contains n = true := List.elem_eq_true_of_mem hmem
        rw [hskip.2] at hc
        exact Bool.false_ne_true hc
      by_cases hexcl : is_path_excluded_for_generation (curPath ++ [n]) selRoot excl
      · rw [if_pos hexcl]
        obtain ⟨fn, heq, hsub, hclean⟩ := ih added content
        exact ⟨fn, heq, hsub.cons n, hclean⟩
      · rw [if_neg hexcl]
        by_cases hmem : curPath ++ [n] ∈ added
        · obtain ⟨fn, heq, hsub, hclean⟩ := ih added (insert (curPath ++ [n]) content)
          refine ⟨fn, ?_, hsub.cons n, hclean⟩
          simp [hmem, heq]
        · obtain ⟨fn, heq, hsub, hclean⟩ :=
            ih (insert (curPath ++ [n]) added) (insert (curPath ++ [n]) content)
          refine ⟨n :: fn, ?_, hsub.cons₂ n, ?_⟩
          · simp [hmem, heq]
          · intro m hm
            rcases List.mem_cons.mp hm with rfl | hm
            · exact hclean_n
            · exact hclean m hm

set_option maxRecDepth 4000 in
/-- C5 (counterexample): with child directories `alpha` and `Beta` and child
files `Zeta.py` and `aa.py` under the single root `/r`, the emitted listing
orders `Beta/` before `alpha/` and `Zeta.py` before `aa.py` — Python's plain
`sorted`, by code point — although the case-insensitive order the claim
demands puts `alpha` strictly before `Beta` (compare their lowercase
forms).  This refutes the claimed case-insensitive ordering of both
groups. -/
theorem c5_counterexample :
    (generate_output_from_selection ⟨[], [], [], [".py"], 1000, 1⟩
        [FSTree.dir "r" [FSTree.dir "alpha" [], FSTree.dir "Beta" [],
          FSTree.file "Zeta.py" (Except.ok 1) (Except.ok "z"),
          FSTree.file "aa.py" (Except.ok 1) (Except.ok "a")]]
        {["r"]} ∅ "output.txt").structure_output =
      [BOILERPLATE_PROMPT ++ "\n",
       "PROJECT CONTEXT OVERVIEW\n",
       "========================\n\n",
       "SELECTION ROOTS (items explicitly chosen to start the project scan):\n",
       "- r\n",
       "\nCOMBINED PROJECT STRUCTURE (based on selections and exclusions):\n",
       "r/\n",
       "    ├── Beta/\n",
       "    ├── alpha/\n",
       "    ├── Zeta.py\n",
       "    ├── aa.py\n"]
    ∧ strle (pyLower "alpha") (pyLower "Beta")
    ∧ pyLower "alpha" ≠ pyLower "Beta" := by
  refine ⟨by decide, by decide, by decide⟩

/-- C5 (amended): at every level of the serializer's walk, the lines one
`os.walk` iteration emits are the (possibly absent) current-directory line,
then the child-directory lines, then the child-file lines — directories
fully before files — and each group is ordered by Python's plain `sorted`,
i.e. case-sensitively by code point (`strle`), not case-insensitively. -/
theorem c5_amended (cfg : Config) (excl : Finset FsPath) (selRoot curPath : FsPath)
    (children : List FSTree) (added content : Finset FsPath) :
    ∃ (pre dn fn : List String),
      (level_emit cfg excl selRoot curPath children added content).1 =
        pre ++
          dn.map (fun n =>
            pyIndent (walkDepth selRoot curPath + 1) ++ "├── " ++ n ++ "/\n") ++
          fn.map (fun n =>
            pyIndent (walkDepth selRoot curPath + 1) ++ "├── " ++ n ++ "\n")
      ∧ (pre = [] ∨ ∃ m, pre =
          [pyIndent (walkDepth selRoot curPath) ++ "├── " ++ m ++ "/\n"])
      ∧ dn.Sorted strle ∧ fn.Sorted strle := by
  have htot : ∀ a b : String, strle a b ∨ strle b a := fun a b => le_total _ _
  have htr : ∀ a b c : String, strle a b → strle b c → strle a c :=
    fun _ _ _ h1 h2 => le_trans h1 h2
  unfold level_emit
  obtain ⟨dn, hdeq, hdsub⟩ := dirLinesLoop_shape (pyIndent (walkDepth selRoot curPath + 1))
    curPath
    (sortByRel strle ((keptDirs cfg excl selRoot curPath children).map Prod.fst))
    (if curPath ≠ selRoot ∧ curPath ∉ added then insert curPath added else added)
  obtain ⟨fn, hfeq, hfsub, _⟩ := filesLoop_shape cfg excl selRoot
    (pyIndent (walkDepth selRoot curPath + 1)) curPath
    (sortByRel strle (fileNames children))
    (dirLinesLoop (pyIndent (walkDepth selRoot curPath + 1)) curPath
      (sortByRel strle ((keptDirs cfg excl selRoot curPath children).map Prod.fst))
      (if curPath ≠ selRoot ∧ curPath ∉ added then insert curPath added else added)).2
    content
  by_cases hcur : curPath ≠ selRoot ∧ curPath ∉ added
  · refine ⟨[pyIndent (walkDepth selRoot curPath) ++ "├── " ++
        curPath.getLastD "" ++ "/\n"], dn, fn, ?_, Or.inr ⟨curPath.getLastD "", rfl⟩,
      ?_, ?_⟩
    · simp only [if_pos hcur] at hdeq hfeq ⊢
      simp [hdeq, hfeq]
    · exact (sortByRel_sorted strle htot htr _).sublist hdsub
    · exact (sortByRel_sorted strle htot htr _).sublist hfsub
  · refine ⟨[], dn, fn, ?_, Or.inl rfl, ?_, ?_⟩
    · simp only [if_neg hcur] at hdeq hfeq ⊢
      simp [hdeq, hfeq]
    · exact (sortByRel_sorted strle htot htr _).sublist hdsub
    · exact (sortByRel_sorted strle htot htr _).sublist hfsub

/-- C4 (counterexample): selecting the hidden (and configured-ignored)
directory `.git` as a root makes the tree section emit the line `.git/` for
it — the root's own line is emitted with no hidden-name or ignored-name
check (`output_generator.py` lines 92–104) — refuting the claim that the
tree never lists a hidden or ignored-name entry even when it is itself a
selection root. -/
theorem c4_counterexample :
    ".git/\n" ∈ (generate_output_from_selection ⟨[".git"], [], [], [".py"], 1000, 1⟩
        [FSTree.dir ".git" [FSTree.file "config" (Except.ok 1) (Except.ok "x")]]
        {[".git"]} ∅ "output.txt").structure_output
    ∧ pyStartsWith ".git" "." = true
    ∧ ".git" ∈ [".git"] := by
  refine ⟨by decide, by decide, by decide⟩

lemma foldl_lines_inv {α : Type} (Q : String → Prop)
    (f : List String × Finset FsPath × Finset FsPath → α →
      List String × Finset FsPath × Finset FsPath) :
    ∀ (l : List α) (acc : List String × Finset FsPath × Finset FsPath),
      (∀ s ∈ acc.1, Q s) →
      (∀ b x, x ∈ l → (∀ s ∈ b.1, Q s) → ∀ s ∈ (f b x).1, Q s) →
      ∀ s ∈ (l.foldl f acc).1, Q s := by
  intro l
  induction l with
  | nil => exact fun acc hacc _ => hacc
  | cons x xs ih =>
    intro acc hacc hf
    exact ih (f acc x) (hf acc x (List.mem_cons_self x xs) hacc)
      (fun b y hy hb => hf b y (List.mem_cons_of_mem x hy) hb)

lemma level_emit_shape (cfg : Config) (excl : Finset FsPath)
    (selRoot curPath : FsPath) (children : List FSTree)
    (added content : Finset FsPath)
    (hcur : curPath = selRoot ∨ ∃ m, curPath.getLast? = some m ∧
      pyStartsWith m "." = false ∧ m ∉ cfg.IGNORE_DIRS) :
    ∀ l ∈ (level_emit cfg excl selRoot curPath children added content).1,
      ∃ ind n isDir, l = ind ++ "├── " ++ n ++ (if isDir then "/\n" else "\n")
        ∧ pyStartsWith n "." = false
        ∧ (isDir = true → n ∉ cfg.IGNORE_DIRS)
        ∧ (isDir = false → n ∉ cfg.IGNORE_FILES) := by
  intro l hl
  unfold level_emit at hl
  by_cases hco : curPath ≠ selRoot ∧ curPath ∉ added
  · simp only [if_pos hco, List.mem_append] at hl
    rcases hl with (hc | hd) | hf
    · rcases hcur with rfl | ⟨m, hm, hm1, hm2⟩
      · exact absurd rfl hco.1
      · rw [List.mem_singleton] at hc
        refine ⟨pyIndent (walkDepth selRoot curPath), m, true, ?_, hm1, fun _ => hm2,
          fun hfalse => absurd hfalse (by simp)⟩
        rw [hc]
        rw [show curPath.getLastD "" = m by
          rw [List.getLastD_eq_getLast?, hm]
          rfl]
        rfl
    · obtain ⟨dn, heq, hsub⟩ := dirLinesLoop_shape
        (pyIndent (walkDepth selRoot curPath + 1)) curPath
        (sortByRel strle ((keptDirs cfg excl selRoot curPath children).map Prod.fst))
        (insert curPath added)
      rw [heq] at hd
      obtain ⟨n, hn, rfl⟩ := List.mem_map.mp hd
      have hclean := keptDirs_clean (mem_sortByRel (hsub.subset hn))
      exact ⟨pyIndent (walkDepth selRoot curPath + 1), n, true, rfl, hclean.1,
        fun _ => hclean.2, fun hfalse => absurd hfalse (by simp)⟩
    · obtain ⟨fn, heq, _, hclean⟩ := filesLoop_shape cfg excl selRoot
        (pyIndent (walkDepth selRoot curPath + 1)) curPath
        (sortByRel strle (fileNames children))
        (dirLinesLoop (pyIndent (walkDepth selRoot curPath + 1)) curPath
          (sortByRel strle
            ((keptDirs cfg excl selRoot curPath children).map Prod.fst))
          (insert curPath added)).2 content
      rw [heq] at hf
      obtain ⟨n, hn, rfl⟩ := List.mem_map.mp hf
      exact ⟨pyIndent (walkDepth selRoot curPath + 1), n, false, rfl, (hclean n hn).1,
        fun htrue => absurd htrue (by simp), fun _ => (hclean n hn).2⟩
  · simp only [if_neg hco, List.mem_append] at hl
    rcases hl with (hc | hd) | hf
    · exact absurd hc (List.not_mem_nil l)
    · obtain ⟨dn, heq, hsub⟩ := dirLinesLoop_shape
        (pyIndent (walkDepth selRoot curPath + 1)) curPath
        (sortByRel strle ((keptDirs cfg excl selRoot curPath children).map Prod.fst))
        added
      rw [heq] at hd
      obtain ⟨n, hn, rfl⟩ := List.mem_map.mp hd
      have hclean := keptDirs_clean (mem_sortByRel (hsub.subset hn))
      exact ⟨pyIndent (walkDepth selRoot curPath + 1), n, true, rfl, hclean.1,
        fun _ => hclean.2, fun hfalse => absurd hfalse (by simp)⟩
    · obtain ⟨fn, heq, _, hclean⟩ := filesLoop_shape cfg excl selRoot
        (pyIndent (walkDepth selRoot curPath + 1)) curPath
        (sortByRel strle (fileNames children))
        (dirLinesLoop (pyIndent (walkDepth selRoot curPath + 1)) curPath
          (sortByRel strle
            ((keptDirs cfg excl selRoot curPath children).map Prod.fst))
          added).2 content
      rw [heq] at hf
      obtain ⟨n, hn, rfl⟩ := List.mem_map.mp hf
      exact ⟨pyIndent (walkDepth selRoot curPath + 1), n, false, rfl, (hclean n hn).1,
        fun htrue => absurd htrue (by simp), fun _ => (hclean n hn).2⟩

/-- C4 (amended): within the walked subtrees — every line the `os.walk` loop
emits below a selection root — no hidden-name or configured-ignored-name
entry ever produces a line: each emitted line names a non-hidden entry, and
a directory (resp. file) line's name is not in `IGNORE_DIRS` (resp.
`IGNORE_FILES`).  Only a selection root's own line escapes this filter (the
counterexample). -/
theorem c4_amended (cfg : Config) (excl : Finset FsPath) (selRoot : FsPath) :
    ∀ (fuel : Nat) (curPath : FsPath) (children : List FSTree)
      (added content : Finset FsPath),
      (curPath = selRoot ∨ ∃ m, curPath.getLast? = some m ∧
        pyStartsWith m "." = false ∧ m ∉ cfg.IGNORE_DIRS) →
      ∀ l ∈ (walkDirNode cfg excl selRoot fuel curPath children added content).1,
        ∃ ind n isDir, l = ind ++ "├── " ++ n ++ (if isDir then "/\n" else "\n")
          ∧ pyStartsWith n "." = false
          ∧ (isDir = true → n ∉ cfg.IGNORE_DIRS)
          ∧ (isDir = false → n ∉ cfg.IGNORE_FILES) := by
  intro fuel
  induction fuel with
  | zero =>
    intro curPath children added content _ l hl
    simp [walkDirNode] at hl
  | succ f ih =>
    intro curPath children added content hcur l hl
    rw [walkDirNode] at hl
    refine foldl_lines_inv _ _ _ _
      (level_emit_shape cfg excl selRoot curPath children added content hcur)
      ?_ l hl
    intro b nc hnc hb s hs
    simp only [List.mem_append] at hs
    rcases hs with h | h
    · exact hb s h
    · refine ih (curPath ++ [nc.1]) nc.2 b.2.1 b.2.2 ?_ s h
      have hclean := keptDirs_clean (List.mem_map.mpr ⟨nc, hnc, rfl⟩)
      exact Or.inr ⟨nc.1, List.getLast?_concat curPath, hclean.1, hclean.2⟩

/-- C4 (witness for the amended theorem): the one line emitted below the
walked root `/.git` is the non-hidden file line for `config`. -/
theorem c4_amended_witness :
    ∃ ind n isDir, "    ├── config\n" =
        ind ++ "├── " ++ n ++ (if isDir then "/\n" else "\n")
      ∧ pyStartsWith n "." = false
      ∧ (isDir = true → n ∉ ([".git"] : List String))
      ∧ (isDir = false → n ∉ ([] : List String)) :=
  c4_amended ⟨[".git"], [], [], [".py"], 1000, 1⟩ ∅ [".git"] 1 [".git"]
    [FSTree.file "config" (Except.ok 1) (Except.ok "x")] ∅ ∅ (Or.inl rfl)
    "    ├── config\n" (by decide)
